import Mathlib

set_option maxHeartbeats 1000000

/-! Shallow embedding of the Sortadate/IQ-TREE helper scripts:
`iqtree_sortadate_helper.py` (the current script) and
`IQtree_sortadate_helper.py` (the earlier variant; its definitions carry a
`V1` suffix below).  Lines of text files are modelled as the `String`s that
Python's file iteration yields (so a line normally still carries its
trailing newline); the filesystem and the external `pxrr` process are
modelled by oracles carried in the configuration record. -/

/-- Whitespace as recognised by Python's `str.strip` / `str.split`
(the Latin-1 part of Python's definition). -/
def pyIsSpace (c : Char) : Bool :=
  c == ' ' || c == '\t' || c == '\n' || c == '\r' || c == '\x0b' || c == '\x0c' ||
  c == '\x1c' || c == '\x1d' || c == '\x1e' || c == '\x1f' || c == '\x85' || c == '\xa0'

/-- Python `str.strip()` on a character list: drop leading and trailing whitespace. -/
def pyStripL (s : List Char) : List Char :=
  ((s.dropWhile pyIsSpace).reverse.dropWhile pyIsSpace).reverse

/-- Python `str.strip()`. -/
def pyStrip (s : String) : String := (pyStripL s.toList).asString

/-- Python `str.rstrip()` (trailing whitespace only).  The code itself never
calls `rstrip`; this definition only serves to state the spec's
"trailing whitespace removed" reading so it can be compared with the code's
`strip()`. -/
def pyRStrip (s : String) : String := ((s.toList.reverse.dropWhile pyIsSpace).reverse).asString

/-- `startsWithL p s` holds when `p` is a leading segment of `s`
(Python `str.startswith`). -/
def startsWithL : List Char → List Char → Bool
  | [], _ => true
  | _ :: _, [] => false
  | a :: as, b :: bs => a == b && startsWithL as bs

/-- Helper for `splitWs`: accumulate the current (reversed) token. -/
def splitWsAux : List Char → List Char → List (List Char)
  | [], cur => if cur.isEmpty then [] else [cur.reverse]
  | c :: rest, cur =>
    if pyIsSpace c then
      if cur.isEmpty then splitWsAux rest [] else cur.reverse :: splitWsAux rest []
    else splitWsAux rest (c :: cur)

/-- Python `str.split()` with no argument: split on whitespace runs,
dropping empty tokens.  (`line.strip().split()` in the source equals
`splitWs` of the raw line.) -/
def splitWs (s : List Char) : List (List Char) := splitWsAux s []

/-- Helper for `splitCommas`. -/
def splitCommasAux : List Char → List Char → List (List Char)
  | [], cur => [cur.reverse]
  | c :: rest, cur =>
    if c == ',' then cur.reverse :: splitCommasAux rest []
    else splitCommasAux rest (c :: cur)

/-- Python `str.split(",")`: split on every comma, keeping empty pieces. -/
def splitCommas (s : List Char) : List (List Char) := splitCommasAux s []

/-- Python `str.isdigit()` restricted to ASCII digits: nonempty, all digits. -/
def isPyDigits (l : List Char) : Bool := !l.isEmpty && l.all (fun c => c.isDigit)

/-- Python `int()` on a string of decimal digits. -/
def digitsToNat (l : List Char) : Nat := l.foldl (fun acc c => acc * 10 + (c.toNat - 48)) 0

/-- Model of `re.sub(r"^p\d+_", "", name)`: delete a leading `p`,
one or more digits, and an underscore, when present. -/
def stripPDigits (name : List Char) : List Char :=
  match name with
  | 'p' :: rest =>
    let ds := rest.takeWhile (fun c => c.isDigit)
    if ds.isEmpty then name
    else
      match rest.drop ds.length with
      | '_' :: tail => tail
      | _ => name
  | _ => name

/-- Insert into a Python-`dict`-style association list: overwrite the value
in place when the key is present, otherwise append at the end. -/
def dictInsert : List (Nat × String) → Nat → String → List (Nat × String)
  | [], k, v => [(k, v)]
  | (k', v') :: rest, k, v =>
    if k' == k then (k, v) :: rest else (k', v') :: dictInsert rest k v

/-- Python `dict` lookup on the association-list model. -/
def dictLookup : List (Nat × String) → Nat → Option String
  | [], _ => none
  | (k', v) :: rest, k => if k' == k then some v else dictLookup rest k

/-- The fixed table-header line recognised by `parse_log_file`
(source: iqtree_sortadate_helper.py line 16). -/
def headerLine : String := "Subset\tType\tSeqs\tSites\tInfor\tInvar\tModel\tName"

/-- The terminator test of both parsers: the stripped line starts with
"Column meanings" (source lines 26 and 16 of the two scripts). -/
def isTerminator (line : String) : Bool :=
  startsWithL "Column meanings".toList (pyStripL line.toList)

/-- One data row of `parse_log_file` (iqtree_sortadate_helper.py lines 30-36):
split the line on whitespace; when there are at least 8 parts and the first is
all digits, store `int(parts[0]) -> stripPDigits(parts[-1])`. -/
def parseRow (acc : List (Nat × String)) (line : String) : List (Nat × String) :=
  match splitWs line.toList with
  | [] => acc
  | p0 :: ps =>
    if 8 ≤ (p0 :: ps).length && isPyDigits p0 then
      dictInsert acc (digitsToNat p0) (stripPDigits ((p0 :: ps).getLastD [])).asString
    else acc

/-- The line loop of `parse_log_file` (iqtree_sortadate_helper.py lines 18-37):
recognise the header, break at the terminator, and within the table feed each
line to `parseRow`. -/
def parseLoop : Bool → List (Nat × String) → List String → List (Nat × String)
  | _, acc, [] => acc
  | in_table, acc, line :: rest =>
    if pyStripL line.toList == headerLine.toList then parseLoop true acc rest
    else if isTerminator line then acc
    else if in_table then parseLoop true (parseRow acc line) rest
    else parseLoop false acc rest

/-- `parse_log_file` of iqtree_sortadate_helper.py (lines 8-38), over the
list of lines of the log file. -/
def parse_log_file (lines : List String) : List (Nat × String) :=
  parseLoop false [] lines

/-- Regex piece `\s+` of the V1 row pattern: require at least one whitespace
character, consume the maximal run. -/
def reqWs : List Char → Option (List Char)
  | [] => none
  | c :: rest =>
    if pyIsSpace c then some ((c :: rest).dropWhile pyIsSpace) else none

/-- Regex piece `\d+`: require at least one digit, return the maximal digit
run and the remainder. -/
def reqDigits : List Char → Option (List Char × List Char)
  | [] => none
  | c :: rest =>
    if c.isDigit then
      some ((c :: rest).takeWhile (fun d => d.isDigit), (c :: rest).dropWhile (fun d => d.isDigit))
    else none

/-- Regex piece `\S+`: require at least one non-whitespace character, return
the maximal run and the remainder. -/
def reqTok : List Char → Option (List Char × List Char)
  | [] => none
  | c :: rest =>
    if pyIsSpace c then none
    else some ((c :: rest).takeWhile (fun d => !pyIsSpace d), (c :: rest).dropWhile (fun d => !pyIsSpace d))

/-- Regex piece for a literal string. -/
def reqLit (lit s : List Char) : Option (List Char) :=
  if startsWithL lit s then some (s.drop lit.length) else none

/-- Regex piece `\\s+\\d+`: whitespace then a digit run, both nonempty. -/
def skipWsNum (s : List Char) : Option (List Char) :=
  match reqWs s with
  | none => none
  | some s1 =>
    match reqDigits s1 with
    | none => none
    | some (_, r) => some r

/-- `n` repetitions of `\\s+\\d+`. -/
def skipWsNumN : Nat → List Char → Option (List Char)
  | 0, s => some s
  | n + 1, s =>
    match skipWsNum s with
    | none => none
    | some r => skipWsNumN n r

/-- Model of `re.match(r"\\s*(\\d+)\\s+DNA\\s+\\d+\\s+\\d+\\s+\\d+\\s+\\d+\\s+\\d+\\s+\\S+\\s+(\\S+)", line)`
from IQtree_sortadate_helper.py lines 18-21.  Every pair of adjacent pieces
has disjoint character classes, so the greedy maximal-munch scan below is
exactly the regex's backtracking semantics.  Returns `(group 1 as int, group 2)`. -/
def matchV1 (line : List Char) : Option (Nat × List Char) :=
  match reqDigits (line.dropWhile pyIsSpace) with
  | none => none
  | some (ds, s1) =>
    match reqWs s1 with
    | none => none
    | some s2 =>
      match reqLit "DNA".toList s2 with
      | none => none
      | some s3 =>
        match skipWsNumN 5 s3 with
        | none => none
        | some s4 =>
          match reqWs s4 with
          | none => none
          | some s5 =>
            match reqTok s5 with
            | none => none
            | some (_, s6) =>
              match reqWs s6 with
              | none => none
              | some s7 =>
                match reqTok s7 with
                | none => none
                | some (nm, _) => some (digitsToNat ds, nm)

/-- The line loop of the V1 `parse_log_file` (IQtree_sortadate_helper.py
lines 14-26): break at the terminator, record every line the row regex
matches. -/
def parseLoopV1 : List (Nat × String) → List String → List (Nat × String)
  | acc, [] => acc
  | acc, line :: rest =>
    if isTerminator line then acc
    else
      match matchV1 line.toList with
      | some (idx, nm) => parseLoopV1 (dictInsert acc idx (stripPDigits nm).asString) rest
      | none => parseLoopV1 acc rest

/-- `parse_log_file` of IQtree_sortadate_helper.py (lines 10-27). -/
def parse_log_file_v1 (lines : List String) : List (Nat × String) :=
  parseLoopV1 [] lines

/-- Python `re` word character `\w` (ASCII part): letter, digit or underscore. -/
def isWordChar (c : Char) : Bool := c.isAlphanum || c == '_'

/-- Whether an optional character (none = string edge) is a word character. -/
def wcharB : Option Char → Bool
  | none => false
  | some c => isWordChar c

/-- Regex `\b`: a boundary sits between two positions exactly when one side
is a word character and the other is not (string edges count as non-word). -/
def boundaryB (l r : Option Char) : Bool := wcharB l != wcharB r

/-- Whether `\b<og>\b` (with `og` literal, as produced by `re.escape`)
matches at the current position: `prev` is the character just before the
position, `s` the rest of the string. -/
def wbAt (og s : List Char) (prev : Option Char) : Bool :=
  startsWithL og s && boundaryB prev s.head? &&
    boundaryB (match og.getLast? with | some c => some c | none => prev) (s.drop og.length).head?

/-- Scan of `re.search(rf"\b{re.escape(og)}\b", line)`: try every position. -/
def wbSearch (og : List Char) : Option Char → List Char → Bool
  | prev, [] => wbAt og [] prev
  | prev, c :: rest => wbAt og (c :: rest) prev || wbSearch og (some c) rest

/-- `re.search(rf"\b{re.escape(og)}\b", line)` as a Boolean
(iqtree_sortadate_helper.py line 114). -/
def containsWholeWord (og line : String) : Bool :=
  wbSearch og.toList none line.toList

/-- Python truthiness of an optional string parameter: present and nonempty. -/
def strTruthy : Option String → Bool
  | none => false
  | some s => !s.isEmpty

/-- Helper for `splitFirstComma`. -/
def splitFirstCommaAux : List Char → List Char → Option (List Char × List Char)
  | [], _ => none
  | c :: rest, acc =>
    if c == ',' then some (acc.reverse, rest) else splitFirstCommaAux rest (c :: acc)

/-- Python `s.split(",", 1)` when it yields two pieces; `none` when the
string has no comma (the case that raises `ValueError` in the source). -/
def splitFirstComma (s : String) : Option (String × String) :=
  match splitFirstCommaAux s.toList [] with
  | some (a, b) => some (a.asString, b.asString)
  | none => none

/-- Resolution of the `--name_replace` argument
(iqtree_sortadate_helper.py lines 72-79): nothing when the argument is
absent or falsy, the `(pattern, replacement)` pair when it splits on a
comma, and a fatal configuration error otherwise. -/
def nrResolve : Option String → Except Unit (Option (String × String))
  | none => Except.ok none
  | some s =>
    if s.isEmpty then Except.ok none
    else
      match splitFirstComma s with
      | some pr => Except.ok (some pr)
      | none => Except.error ()

/-- `[og.strip() for og in reroot.split(",") if og.strip()]`
(iqtree_sortadate_helper.py line 70). -/
def pySplitOutgroups (r : String) : List String :=
  (((splitCommas r.toList).map pyStripL).filter (fun t => !t.isEmpty)).map List.asString

/-- One invocation of the external rerooting tool, i.e. the command
`["pxrr", "-t", treefile, "-r", "-g", ranked_ogs, "-o", out_file]`
built by `run_pxrr` (iqtree_sortadate_helper.py lines 40-45). -/
structure PxrrCall where
  treefile : String
  ranked_ogs : String
  out_file : String
deriving DecidableEq

/-- `run_pxrr(treefile, ranked_ogs, out_file)`: in the embedding an
invocation is recorded as the argument triple of the subprocess command. -/
def run_pxrr (treefile ranked_ogs out_file : String) : PxrrCall :=
  { treefile := treefile, ranked_ogs := ranked_ogs, out_file := out_file }

/-- Configuration of one `split_trees` run (the parameters of
iqtree_sortadate_helper.py lines 48-57) together with the oracles that model
the world outside the script: `fastaExists` is `os.path.exists`, `regexSub`
is `re.sub` on the user-supplied pattern, and `pxrrOk` tells whether the
external `pxrr` process exits with status zero for a given input tree file. -/
structure Config where
  id_to_name : List (Nat × String)
  outdir : String
  suffix : Option String
  fasta_dir : Option String
  reroot : Option String
  keep_only_outgroup : Bool
  name_replace : Option String
  fastaExists : String → Bool
  regexSub : String → String → String → String
  pxrrOk : String → Bool

/-- Accumulated run state of `split_trees` (counters and lists of
iqtree_sortadate_helper.py lines 60-65), extended with a record of the
files written (`files`, as path/content pairs), of the rerooted sibling
files produced by successful `pxrr` runs (`rr_files`), and of the `pxrr`
invocations attempted (`pxrr_calls`). -/
structure St where
  written : Nat
  skipped_missing_fasta : Nat
  rerooted : Nat
  reroot_failed : Nat
  no_outgroups : List String
  reroot_fail_list : List String
  files : List (String × String)
  rr_files : List String
  pxrr_calls : List PxrrCall
deriving DecidableEq

/-- The all-zero initial state of a run. -/
def initSt : St :=
  { written := 0, skipped_missing_fasta := 0, rerooted := 0, reroot_failed := 0,
    no_outgroups := [], reroot_fail_list := [], files := [], rr_files := [],
    pxrr_calls := [] }

/-- The outgroup token list prepared at the start of `split_trees`
(iqtree_sortadate_helper.py lines 68-70). -/
def outgroupListOf (cfg : Config) : List String :=
  if strTruthy cfg.reroot then pySplitOutgroups (cfg.reroot.getD "") else []

/-- Name resolution for one line (iqtree_sortadate_helper.py lines 86-90):
the mapped name, with the `re.sub` replacement applied when the split
`--name_replace` argument has a truthy pattern and a truthy replacement. -/
def resolveName (cfg : Config) (nr : Option (String × String)) (name0 : String) : String :=
  match nr with
  | some (pat, sub) =>
    if !pat.isEmpty && !sub.isEmpty then cfg.regexSub pat sub name0 else name0
  | none => name0

/-- `basename = f"{name}{suffix}" if suffix else name`
(iqtree_sortadate_helper.py line 93). -/
def basenameOf (cfg : Config) (nr : Option (String × String)) (name0 : String) : String :=
  if strTruthy cfg.suffix then resolveName cfg nr name0 ++ cfg.suffix.getD ""
  else resolveName cfg nr name0

/-- `os.path.join(fasta_dir, f"{basename}.fasta")`
(iqtree_sortadate_helper.py line 97). -/
def fastaPath (cfg : Config) (nr : Option (String × String)) (name0 : String) : String :=
  cfg.fasta_dir.getD "" ++ "/" ++ basenameOf cfg nr name0 ++ ".fasta"

/-- `Path(outdir) / f"{basename}.treefile"` (iqtree_sortadate_helper.py
line 102). -/
def outfilePath (cfg : Config) (nr : Option (String × String)) (name0 : String) : String :=
  cfg.outdir ++ "/" ++ basenameOf cfg nr name0 ++ ".treefile"

/-- One iteration of the `split_trees` line loop
(iqtree_sortadate_helper.py lines 82-129) on line number `i` (1-based) with
content `line`; `nr` is the resolved `--name_replace` pair and `ogl` the
prepared outgroup list. -/
def stepLine (cfg : Config) (nr : Option (String × String)) (ogl : List String)
    (st : St) (i : Nat) (line : String) : St :=
  match dictLookup cfg.id_to_name i with
  | none => st
  | some name0 =>
    if strTruthy cfg.fasta_dir && !cfg.fastaExists (fastaPath cfg nr name0) then
      { st with skipped_missing_fasta := st.skipped_missing_fasta + 1 }
    else
      let outfile := outfilePath cfg nr name0
      let st1 := { st with files := st.files ++ [(outfile, pyStrip line ++ "\n")],
                           written := st.written + 1 }
      if strTruthy cfg.reroot then
        if cfg.keep_only_outgroup && !(ogl.any fun og => containsWholeWord og line) then
          { st1 with no_outgroups := st1.no_outgroups ++ [outfile] }
        else
          let rr_file := outfile ++ ".rr"
          let st2 := { st1 with pxrr_calls :=
                        st1.pxrr_calls ++ [run_pxrr outfile (cfg.reroot.getD "") rr_file] }
          if cfg.pxrrOk outfile then
            { st2 with rerooted := st2.rerooted + 1, rr_files := st2.rr_files ++ [rr_file] }
          else
            { st2 with reroot_failed := st2.reroot_failed + 1,
                       reroot_fail_list := st2.reroot_fail_list ++ [outfile] }
      else st1

/-- The `split_trees` line loop (`for i, line in enumerate(f, start=1)`). -/
def splitLoop (cfg : Config) (nr : Option (String × String)) (ogl : List String) :
    St → Nat → List String → St
  | st, _, [] => st
  | st, i, line :: rest => splitLoop cfg nr ogl (stepLine cfg nr ogl st i line) (i + 1) rest

/-- `split_trees` of iqtree_sortadate_helper.py (lines 48-129): resolve the
`--name_replace` argument (fatal on a malformed value), prepare the outgroup
list, and run the line loop from the all-zero state on the 1-based lines. -/
def split_trees (cfg : Config) (lines : List String) : Except Unit St :=
  match nrResolve cfg.name_replace with
  | Except.error _ => Except.error ()
  | Except.ok nr => Except.ok (splitLoop cfg nr (outgroupListOf cfg) initSt 1 lines)

/-- The post-loop list artifacts (iqtree_sortadate_helper.py lines 140-154):
when rerooting was requested, `no_outgroups.list` is always written (possibly
empty) and `reroot_failed.list` only when the failure list is nonempty.
Each artifact is `(path, recorded paths one per line)`. -/
def finalize (cfg : Config) (st : St) : List (String × List String) :=
  if strTruthy cfg.reroot then
    (cfg.outdir ++ "/no_outgroups.list", st.no_outgroups) ::
      (if st.reroot_fail_list.isEmpty then []
       else [(cfg.outdir ++ "/reroot_failed.list", st.reroot_fail_list)])
  else []

/-- A whole run: the loop followed by the artifact writes. -/
def run_split_trees (cfg : Config) (lines : List String) :
    Except Unit (St × List (String × List String)) :=
  match split_trees cfg lines with
  | Except.error _ => Except.error ()
  | Except.ok st => Except.ok (st, finalize cfg st)

/-- Configuration of the V1 `split_trees` (IQtree_sortadate_helper.py
line 30), with the `os.path.exists` oracle. -/
structure ConfigV1 where
  id_to_name : List (Nat × String)
  outdir : String
  suffix : Option String
  fasta_dir : Option String
  fastaExists : String → Bool

/-- Run state of the V1 `split_trees` (IQtree_sortadate_helper.py
lines 33-34) plus the record of written files. -/
structure StV1 where
  written : Nat
  skipped : Nat
  files : List (String × String)
deriving DecidableEq

/-- The all-zero initial V1 state. -/
def initStV1 : StV1 := { written := 0, skipped := 0, files := [] }

/-- `f"{name}{suffix}" if suffix else name` (IQtree_sortadate_helper.py
line 44). -/
def basenameV1 (cfg : ConfigV1) (name : String) : String :=
  if strTruthy cfg.suffix then name ++ cfg.suffix.getD "" else name

/-- One iteration of the V1 line loop (IQtree_sortadate_helper.py
lines 37-56). -/
def stepLineV1 (cfg : ConfigV1) (st : StV1) (i : Nat) (line : String) : StV1 :=
  match dictLookup cfg.id_to_name i with
  | none => st
  | some name =>
    if strTruthy cfg.fasta_dir &&
        !cfg.fastaExists (cfg.fasta_dir.getD "" ++ "/" ++ basenameV1 cfg name ++ ".fasta") then
      { st with skipped := st.skipped + 1 }
    else
      { st with files := st.files ++
                  [(cfg.outdir ++ "/" ++ basenameV1 cfg name ++ ".treefile", pyStrip line ++ "\n")],
                written := st.written + 1 }

/-- The V1 line loop. -/
def splitLoopV1 (cfg : ConfigV1) : StV1 → Nat → List String → StV1
  | st, _, [] => st
  | st, i, line :: rest => splitLoopV1 cfg (stepLineV1 cfg st i line) (i + 1) rest

/-- `split_trees` of IQtree_sortadate_helper.py (lines 30-56). -/
def split_trees_v1 (cfg : ConfigV1) (lines : List String) : StV1 :=
  splitLoopV1 cfg initStV1 1 lines

/-- Derived per-line write of `split_trees`: the `(path, content)` pair the
iteration on line `i` writes, or `none` when the line is skipped.  Its
agreement with `stepLine` is proved in `stepLine_files`. -/
def lineWrite (cfg : Config) (nr : Option (String × String)) (i : Nat) (line : String) :
    Option (String × String) :=
  match dictLookup cfg.id_to_name i with
  | none => none
  | some name0 =>
    if strTruthy cfg.fasta_dir && !cfg.fastaExists (fastaPath cfg nr name0) then none
    else some (outfilePath cfg nr name0, pyStrip line ++ "\n")

/-- Derived per-line write of the V1 `split_trees`. -/
def lineWriteV1 (cfg : ConfigV1) (i : Nat) (line : String) : Option (String × String) :=
  match dictLookup cfg.id_to_name i with
  | none => none
  | some name =>
    if strTruthy cfg.fasta_dir &&
        !cfg.fastaExists (cfg.fasta_dir.getD "" ++ "/" ++ basenameV1 cfg name ++ ".fasta") then none
    else some (cfg.outdir ++ "/" ++ basenameV1 cfg name ++ ".treefile", pyStrip line ++ "\n")

theorem stepLine_files (cfg : Config) (nr : Option (String × String)) (ogl : List String)
    (st : St) (i : Nat) (line : String) :
    (stepLine cfg nr ogl st i line).files = st.files ++ (lineWrite cfg nr i line).toList := by
  cases hd : dictLookup cfg.id_to_name i with
  | none => simp [stepLine, lineWrite, hd]
  | some name0 =>
    simp only [stepLine, lineWrite, hd]
    split_ifs <;> simp

theorem stepLineV1_files (cfg : ConfigV1) (st : StV1) (i : Nat) (line : String) :
    (stepLineV1 cfg st i line).files = st.files ++ (lineWriteV1 cfg i line).toList := by
  cases hd : dictLookup cfg.id_to_name i with
  | none => simp [stepLineV1, lineWriteV1, hd]
  | some name =>
    simp only [stepLineV1, lineWriteV1, hd]
    split_ifs <;> simp

theorem splitLoop_files (cfg : Config) (nr : Option (String × String)) (ogl : List String) :
    ∀ (ls : List String) (st : St) (i : Nat),
      (splitLoop cfg nr ogl st i ls).files =
        st.files ++ (List.enumFrom i ls).filterMap (fun p => lineWrite cfg nr p.1 p.2)
  | [], st, i => by simp [splitLoop]
  | l :: ls, st, i => by
    rw [splitLoop, splitLoop_files cfg nr ogl ls _ (i + 1), stepLine_files]
    cases h : lineWrite cfg nr i l <;> simp [List.enumFrom, List.filterMap_cons, h]

theorem splitLoopV1_files (cfg : ConfigV1) :
    ∀ (ls : List String) (st : StV1) (i : Nat),
      (splitLoopV1 cfg st i ls).files =
        st.files ++ (List.enumFrom i ls).filterMap (fun p => lineWriteV1 cfg p.1 p.2)
  | [], st, i => by simp [splitLoopV1]
  | l :: ls, st, i => by
    rw [splitLoopV1, splitLoopV1_files cfg ls _ (i + 1), stepLineV1_files]
    cases h : lineWriteV1 cfg i l <;> simp [List.enumFrom, List.filterMap_cons, h]

/-- Componentwise combination of two run states: counters add, lists append.
The loop only ever extends its state, so a run started from `a` equals `a`
combined with the same run started from the all-zero state. -/
def stAppend (a b : St) : St :=
  { written := a.written + b.written,
    skipped_missing_fasta := a.skipped_missing_fasta + b.skipped_missing_fasta,
    rerooted := a.rerooted + b.rerooted,
    reroot_failed := a.reroot_failed + b.reroot_failed,
    no_outgroups := a.no_outgroups ++ b.no_outgroups,
    reroot_fail_list := a.reroot_fail_list ++ b.reroot_fail_list,
    files := a.files ++ b.files,
    rr_files := a.rr_files ++ b.rr_files,
    pxrr_calls := a.pxrr_calls ++ b.pxrr_calls }

theorem stAppend_initSt (a : St) : stAppend a initSt = a := by
  simp [stAppend, initSt]

theorem stepLine_append (cfg : Config) (nr : Option (String × String)) (ogl : List String)
    (a b : St) (i : Nat) (line : String) :
    stepLine cfg nr ogl (stAppend a b) i line = stAppend a (stepLine cfg nr ogl b i line) := by
  cases hd : dictLookup cfg.id_to_name i with
  | none => simp [stepLine, hd]
  | some name0 =>
    simp only [stepLine, hd]
    split_ifs <;> simp [stAppend, Nat.add_assoc, List.append_assoc]

theorem splitLoop_append (cfg : Config) (nr : Option (String × String)) (ogl : List String) :
    ∀ (ls : List String) (a b : St) (i : Nat),
      splitLoop cfg nr ogl (stAppend a b) i ls = stAppend a (splitLoop cfg nr ogl b i ls)
  | [], a, b, i => by simp [splitLoop]
  | l :: ls, a, b, i => by
    rw [splitLoop, stepLine_append, splitLoop_append cfg nr ogl ls a _ (i + 1), splitLoop]

theorem splitLoop_from_initSt (cfg : Config) (nr : Option (String × String)) (ogl : List String)
    (st : St) (i : Nat) (ls : List String) :
    splitLoop cfg nr ogl st i ls = stAppend st (splitLoop cfg nr ogl initSt i ls) := by
  have h := splitLoop_append cfg nr ogl ls st initSt i
  rwa [stAppend_initSt] at h

theorem stepLine_fail_count (cfg : Config) (nr : Option (String × String)) (ogl : List String)
    (st : St) (i : Nat) (line : String)
    (h : st.reroot_failed = st.reroot_fail_list.length) :
    (stepLine cfg nr ogl st i line).reroot_failed =
      (stepLine cfg nr ogl st i line).reroot_fail_list.length := by
  cases hd : dictLookup cfg.id_to_name i with
  | none => simpa [stepLine, hd] using h
  | some name0 =>
    simp only [stepLine, hd]
    split_ifs <;> simp [h]

theorem splitLoop_fail_count (cfg : Config) (nr : Option (String × String)) (ogl : List String) :
    ∀ (ls : List String) (st : St) (i : Nat),
      st.reroot_failed = st.reroot_fail_list.length →
      (splitLoop cfg nr ogl st i ls).reroot_failed =
        (splitLoop cfg nr ogl st i ls).reroot_fail_list.length
  | [], st, i, h => by simpa [splitLoop] using h
  | l :: ls, st, i, h => by
    rw [splitLoop]
    exact splitLoop_fail_count cfg nr ogl ls _ (i + 1) (stepLine_fail_count cfg nr ogl st i l h)

theorem stepLine_outcome_sum (cfg : Config) (nr : Option (String × String)) (ogl : List String)
    (st : St) (i : Nat) (line : String)
    (hr : strTruthy cfg.reroot = true)
    (h : st.rerooted + st.reroot_failed + st.no_outgroups.length = st.written) :
    (stepLine cfg nr ogl st i line).rerooted + (stepLine cfg nr ogl st i line).reroot_failed +
        (stepLine cfg nr ogl st i line).no_outgroups.length =
      (stepLine cfg nr ogl st i line).written := by
  cases hd : dictLookup cfg.id_to_name i with
  | none => simpa [stepLine, hd] using h
  | some name0 =>
    simp only [stepLine, hd, hr]
    split_ifs <;> simp <;> omega

theorem splitLoop_outcome_sum (cfg : Config) (nr : Option (String × String)) (ogl : List String)
    (hr : strTruthy cfg.reroot = true) :
    ∀ (ls : List String) (st : St) (i : Nat),
      st.rerooted + st.reroot_failed + st.no_outgroups.length = st.written →
      (splitLoop cfg nr ogl st i ls).rerooted + (splitLoop cfg nr ogl st i ls).reroot_failed +
          (splitLoop cfg nr ogl st i ls).no_outgroups.length =
        (splitLoop cfg nr ogl st i ls).written
  | [], st, i, h => by simpa [splitLoop] using h
  | l :: ls, st, i, h => by
    rw [splitLoop]
    exact splitLoop_outcome_sum cfg nr ogl hr ls _ (i + 1)
      (stepLine_outcome_sum cfg nr ogl st i l hr h)

theorem stepLine_no_outgroups_keep_false (cfg : Config) (nr : Option (String × String))
    (ogl : List String) (st : St) (i : Nat) (line : String)
    (hk : cfg.keep_only_outgroup = false) :
    (stepLine cfg nr ogl st i line).no_outgroups = st.no_outgroups := by
  cases hd : dictLookup cfg.id_to_name i with
  | none => simp [stepLine, hd]
  | some name0 =>
    simp only [stepLine, hd, hk]
    split_ifs <;> simp_all

theorem splitLoop_no_outgroups_keep_false (cfg : Config) (nr : Option (String × String))
    (ogl : List String) (hk : cfg.keep_only_outgroup = false) :
    ∀ (ls : List String) (st : St) (i : Nat),
      (splitLoop cfg nr ogl st i ls).no_outgroups = st.no_outgroups
  | [], st, i => by simp [splitLoop]
  | l :: ls, st, i => by
    rw [splitLoop, splitLoop_no_outgroups_keep_false cfg nr ogl hk ls _ (i + 1),
      stepLine_no_outgroups_keep_false cfg nr ogl st i l hk]

theorem stepLine_calls_raw (cfg : Config) (nr : Option (String × String)) (ogl : List String)
    (st : St) (i : Nat) (line : String) (c : PxrrCall)
    (hc : c ∈ (stepLine cfg nr ogl st i line).pxrr_calls) :
    c ∈ st.pxrr_calls ∨ c.ranked_ogs = cfg.reroot.getD "" := by
  cases hd : dictLookup cfg.id_to_name i with
  | none =>
    simp only [stepLine, hd] at hc
    exact Or.inl hc
  | some name0 =>
    simp only [stepLine, hd] at hc
    split_ifs at hc <;> simp [run_pxrr] at hc <;>
      first
        | exact Or.inl hc
        | rcases hc with hc | hc
          · exact Or.inl hc
          · exact Or.inr (by simp [hc])

theorem splitLoop_calls_raw (cfg : Config) (nr : Option (String × String)) (ogl : List String) :
    ∀ (ls : List String) (st : St) (i : Nat) (c : PxrrCall),
      c ∈ (splitLoop cfg nr ogl st i ls).pxrr_calls →
      c ∈ st.pxrr_calls ∨ c.ranked_ogs = cfg.reroot.getD ""
  | [], st, i, c, hc => by
    rw [splitLoop] at hc
    exact Or.inl hc
  | l :: ls, st, i, c, hc => by
    rw [splitLoop] at hc
    rcases splitLoop_calls_raw cfg nr ogl ls _ (i + 1) c hc with h | h
    · exact stepLine_calls_raw cfg nr ogl st i l c h
    · exact Or.inr h

theorem term_not_header (t : String) (ht : isTerminator t = true) :
    (pyStripL t.toList == headerLine.toList) = false := by
  cases hb : (pyStripL t.toList == headerLine.toList) with
  | false => rfl
  | true =>
    have he : pyStripL t.toList = headerLine.toList := by
      exact eq_of_beq hb
    rw [isTerminator, he] at ht
    exact absurd ht (by decide)

theorem parseLoop_stop (t : String) (post : List String) (ht : isTerminator t = true) :
    ∀ (pre : List String) (in_table : Bool) (acc : List (Nat × String)),
      parseLoop in_table acc (pre ++ t :: post) = parseLoop in_table acc pre
  | [], in_table, acc => by
    simp only [List.nil_append, parseLoop, term_not_header t ht, ht]
    simp [parseLoop]
  | l :: pre, in_table, acc => by
    simp only [List.cons_append, parseLoop]
    split_ifs <;> first
      | rfl
      | exact parseLoop_stop t post ht pre _ _

theorem parseLoopV1_stop (t : String) (post : List String) (ht : isTerminator t = true) :
    ∀ (pre : List String) (acc : List (Nat × String)),
      parseLoopV1 acc (pre ++ t :: post) = parseLoopV1 acc pre
  | [], acc => by
    simp [parseLoopV1, ht]
  | l :: pre, acc => by
    simp only [List.cons_append, parseLoopV1]
    split_ifs
    · rfl
    · cases matchV1 l.toList <;> exact parseLoopV1_stop t post ht pre _

/-- C5: for every log input, parsing stops at the first line whose stripped
content begins with "Column meanings": rows after that terminator line never
contribute an entry to the returned mapping (both script versions). -/
theorem c5_parse_stops_at_terminator (pre post : List String) (t : String)
    (ht : isTerminator t = true) :
    parse_log_file (pre ++ t :: post) = parse_log_file pre ∧
    parse_log_file_v1 (pre ++ t :: post) = parse_log_file_v1 pre :=
  ⟨parseLoop_stop t post ht pre false [], parseLoopV1_stop t post ht pre []⟩

theorem c5_witness :
    isTerminator "Column meanings:  Subset index\n" = true ∧
    (parse_log_file
        (["Subset\tType\tSeqs\tSites\tInfor\tInvar\tModel\tName\n",
          "12  DNA  100  500  50  10  5  GTR  p3_uce100\n"] ++
          "Column meanings:  Subset index\n" ::
            ["13  DNA  100  500  50  10  5  GTR  p3_uce101\n"]) =
      parse_log_file
        ["Subset\tType\tSeqs\tSites\tInfor\tInvar\tModel\tName\n",
         "12  DNA  100  500  50  10  5  GTR  p3_uce100\n"] ∧
     parse_log_file_v1
        (["Subset\tType\tSeqs\tSites\tInfor\tInvar\tModel\tName\n",
          "12  DNA  100  500  50  10  5  GTR  p3_uce100\n"] ++
          "Column meanings:  Subset index\n" ::
            ["13  DNA  100  500  50  10  5  GTR  p3_uce101\n"]) =
      parse_log_file_v1
        ["Subset\tType\tSeqs\tSites\tInfor\tInvar\tModel\tName\n",
         "12  DNA  100  500  50  10  5  GTR  p3_uce100\n"]) :=
  ⟨by decide,
   c5_parse_stops_at_terminator
     ["Subset\tType\tSeqs\tSites\tInfor\tInvar\tModel\tName\n",
      "12  DNA  100  500  50  10  5  GTR  p3_uce100\n"]
     ["13  DNA  100  500  50  10  5  GTR  p3_uce101\n"]
     "Column meanings:  Subset index\n" (by decide)⟩

/-- The concrete log of the spec's worked example: a table containing the row
`12  DNA  100  500  50  10  5  GTR  p3_uce100`, then the terminator, then a
row that must be ignored. -/
def logLinesC6 : List String :=
  ["IQ-TREE log\n",
   "Subset\tType\tSeqs\tSites\tInfor\tInvar\tModel\tName\n",
   "12  DNA  100  500  50  10  5  GTR  p3_uce100\n",
   "Column meanings:  Subset is the locus index\n",
   "99  DNA  100  500  50  10  5  GTR  p9_after\n"]

/-- A tree file with twelve lines; line 12 is `(a,b);`. -/
def treeLinesC6 : List String :=
  ["(t1);\n", "(t2);\n", "(t3);\n", "(t4);\n", "(t5);\n", "(t6);\n",
   "(t7);\n", "(t8);\n", "(t9);\n", "(t10);\n", "(t11);\n", "(a,b);\n"]

/-- The worked example's configuration: the parsed mapping, suffix
`_trimalauto`, no companion directory, no rerooting, no name transform. -/
def cfgC6 : Config :=
  { id_to_name := parse_log_file logLinesC6, outdir := "out",
    suffix := some "_trimalauto", fasta_dir := none, reroot := none,
    keep_only_outgroup := false, name_replace := none,
    fastaExists := fun _ => false, regexSub := fun _ _ s => s,
    pxrrOk := fun _ => true }

/-- The run state the worked example produces. -/
def stC6 : St :=
  { written := 1, skipped_missing_fasta := 0, rerooted := 0, reroot_failed := 0,
    no_outgroups := [], reroot_fail_list := [],
    files := [("out/uce100_trimalauto.treefile", "(a,b);\n")],
    rr_files := [], pxrr_calls := [] }

/-- C6: the log row `12  DNA  100  500  50  10  5  GTR  p3_uce100` yields the
mapping entry `12 -> "uce100"` (the `p<digits>_` prefix stripped, in both
parser versions), and with that mapping, tree line 12, suffix `_trimalauto`
and no companion directory, `split_trees` produces exactly the file
`uce100_trimalauto.treefile` containing that line's trimmed content. -/
theorem c6_worked_example :
    parse_log_file logLinesC6 = [(12, "uce100")] ∧
    parse_log_file_v1 logLinesC6 = [(12, "uce100")] ∧
    split_trees cfgC6 treeLinesC6 = Except.ok stC6 ∧
    stC6.files = [("out/uce100_trimalauto.treefile", pyStrip "(a,b);\n" ++ "\n")] :=
  ⟨by decide, by decide, rfl, by decide⟩

theorem lineWrite_content (cfg : Config) (nr : Option (String × String)) (i : Nat)
    (l : String) (pc : String × String) (h : lineWrite cfg nr i l = some pc) :
    pc.2 = pyStrip l ++ "\n" := by
  unfold lineWrite at h
  cases hd : dictLookup cfg.id_to_name i with
  | none => rw [hd] at h; exact absurd h (by simp)
  | some name0 =>
    rw [hd] at h
    dsimp only at h
    split_ifs at h
    rw [← Option.some.inj h]

theorem lineWriteV1_content (cfg : ConfigV1) (i : Nat)
    (l : String) (pc : String × String) (h : lineWriteV1 cfg i l = some pc) :
    pc.2 = pyStrip l ++ "\n" := by
  unfold lineWriteV1 at h
  cases hd : dictLookup cfg.id_to_name i with
  | none => rw [hd] at h; exact absurd h (by simp)
  | some name0 =>
    rw [hd] at h
    dsimp only at h
    split_ifs at h
    rw [← Option.some.inj h]

/-- C1: a line of the tree file produces a written output file exactly when
its 1-based ordinal is a key of the mapping and either no companion (fasta)
directory is configured or the expected `<name+suffix>.fasta` file exists
there; the run's written files are exactly the per-line writes in order
(stated for the current script with no name transform configured, and for
the V1 script). -/
theorem c1_write_iff (cfg : Config) (lines : List String) (st : St)
    (hnr : cfg.name_replace = none)
    (h : split_trees cfg lines = Except.ok st) :
    (st.files = (List.enumFrom 1 lines).filterMap (fun p => lineWrite cfg none p.1 p.2) ∧
     ∀ (i : Nat) (line : String),
       (lineWrite cfg none i line).isSome = true ↔
         ∃ name0, dictLookup cfg.id_to_name i = some name0 ∧
           (strTruthy cfg.fasta_dir = true →
             cfg.fastaExists (fastaPath cfg none name0) = true)) ∧
    ∀ (cfg1 : ConfigV1) (lines1 : List String),
      (split_trees_v1 cfg1 lines1).files =
        (List.enumFrom 1 lines1).filterMap (fun p => lineWriteV1 cfg1 p.1 p.2) ∧
      ∀ (i : Nat) (line : String),
        (lineWriteV1 cfg1 i line).isSome = true ↔
          ∃ name, dictLookup cfg1.id_to_name i = some name ∧
            (strTruthy cfg1.fasta_dir = true →
              cfg1.fastaExists
                (cfg1.fasta_dir.getD "" ++ "/" ++ basenameV1 cfg1 name ++ ".fasta") = true) := by
  have hst : st = splitLoop cfg none (outgroupListOf cfg) initSt 1 lines := by
    simp only [split_trees, hnr, nrResolve] at h
    exact (Except.ok.inj h).symm
  refine ⟨⟨?_, ?_⟩, ?_⟩
  · rw [hst, splitLoop_files]
    simp [initSt]
  · intro i line
    cases hd : dictLookup cfg.id_to_name i with
    | none => simp [lineWrite, hd]
    | some name0 =>
      simp only [lineWrite, hd]
      cases hf : strTruthy cfg.fasta_dir <;>
        cases he : cfg.fastaExists (fastaPath cfg none name0) <;> simp [hf, he]
  · intro cfg1 lines1
    constructor
    · rw [split_trees_v1, splitLoopV1_files]
      simp [initStV1]
    · intro i line
      cases hd : dictLookup cfg1.id_to_name i with
      | none => simp [lineWriteV1, hd]
      | some name =>
        simp only [lineWriteV1, hd]
        cases hf : strTruthy cfg1.fasta_dir <;>
          cases he : cfg1.fastaExists
            (cfg1.fasta_dir.getD "" ++ "/" ++ basenameV1 cfg1 name ++ ".fasta") <;> simp [hf, he]

theorem c1_witness :
    (lineWrite cfgC6 none 12 "(a,b);\n").isSome = true ↔
      ∃ name0, dictLookup cfgC6.id_to_name 12 = some name0 ∧
        (strTruthy cfgC6.fasta_dir = true →
          cfgC6.fastaExists (fastaPath cfgC6 none name0) = true) :=
  (c1_write_iff cfgC6 treeLinesC6 stC6 rfl rfl).1.2 12 "(a,b);\n"

/-- The configuration of the C2 counterexample: line 1 maps to name `a`,
no suffix, no companion directory, no rerooting, no name transform. -/
def cfgC2 : Config :=
  { id_to_name := [(1, "a")], outdir := "out", suffix := none, fasta_dir := none,
    reroot := none, keep_only_outgroup := false, name_replace := none,
    fastaExists := fun _ => false, regexSub := fun _ _ s => s, pxrrOk := fun _ => true }

/-- The run state the C2 counterexample produces. -/
def stC2 : St :=
  { written := 1, skipped_missing_fasta := 0, rerooted := 0, reroot_failed := 0,
    no_outgroups := [], reroot_fail_list := [],
    files := [("out/a.treefile", "(x);\n")], rr_files := [], pxrr_calls := [] }

/-- C2 is false as stated: on the input line `" (x); \n"` (which has leading
whitespace) the code writes `"(x);\n"` — `line.strip()` removes the LEADING
whitespace as well — whereas the claim's "only trailing whitespace removed"
reading demands `" (x);\n"`. -/
theorem c2_counterexample :
    split_trees cfgC2 [" (x); \n"] = Except.ok stC2 ∧
    stC2.files = [("out/a.treefile", "(x);\n")] ∧
    pyRStrip " (x); \n" ++ "\n" = " (x);\n" ∧
    ¬ (("(x);\n" : String) = pyRStrip " (x); \n" ++ "\n") :=
  ⟨rfl, rfl, by decide, by decide⟩

/-- C2 amended: each written `.treefile` is bound to its own originating
input line — the run's file list is exactly the ordered per-line writes of
the enumerated lines, and the write of line `i` has as content THAT line
with leading AND trailing whitespace removed (Python `str.strip()`) and
exactly one trailing newline appended; interior characters are preserved
(both script versions). -/
theorem c2_amended_strip_content (cfg : Config) (nr : Option (String × String))
    (lines : List String) (st : St)
    (hnr : nrResolve cfg.name_replace = Except.ok nr)
    (h : split_trees cfg lines = Except.ok st) :
    (st.files = (List.enumFrom 1 lines).filterMap (fun p => lineWrite cfg nr p.1 p.2) ∧
     ∀ (i : Nat) (line : String) (pc : String × String),
       lineWrite cfg nr i line = some pc → pc.2 = pyStrip line ++ "\n") ∧
    ∀ (cfg1 : ConfigV1) (lines1 : List String),
      (split_trees_v1 cfg1 lines1).files =
        (List.enumFrom 1 lines1).filterMap (fun p => lineWriteV1 cfg1 p.1 p.2) ∧
      ∀ (i : Nat) (line : String) (pc : String × String),
        lineWriteV1 cfg1 i line = some pc → pc.2 = pyStrip line ++ "\n" := by
  have hst : st = splitLoop cfg nr (outgroupListOf cfg) initSt 1 lines := by
    simp only [split_trees, hnr] at h
    exact (Except.ok.inj h).symm
  refine ⟨⟨?_, ?_⟩, ?_⟩
  · rw [hst, splitLoop_files]
    simp [initSt]
  · intro i line pc hw
    exact lineWrite_content cfg nr i line pc hw
  · intro cfg1 lines1
    constructor
    · rw [split_trees_v1, splitLoopV1_files]
      simp [initStV1]
    · intro i line pc hw
      exact lineWriteV1_content cfg1 i line pc hw

theorem c2_witness :
    (("out/a.treefile", "(x);\n") : String × String).2 = pyStrip " (x); \n" ++ "\n" :=
  (c2_amended_strip_content cfgC2 none [" (x); \n"] stC2 rfl rfl).1.2 1 " (x); \n"
    ("out/a.treefile", "(x);\n") rfl

/-- C3: with rerooting configured and outgroup-gating enabled, a written
locus has the external reroot invocation attempted exactly when its raw tree
line contains at least one configured outgroup token as a word-boundary
match; when no token matches, the written `.treefile` path is appended to the
no-outgroups list, no `.rr` sibling is produced, and the unrerooted
`.treefile` write remains recorded. -/
theorem c3_outgroup_gating (cfg : Config) (nr : Option (String × String)) (st : St)
    (i : Nat) (line : String) (name0 : String)
    (hr : strTruthy cfg.reroot = true)
    (hk : cfg.keep_only_outgroup = true)
    (hd : dictLookup cfg.id_to_name i = some name0)
    (hfa : (strTruthy cfg.fasta_dir && !cfg.fastaExists (fastaPath cfg nr name0)) = false) :
    ((stepLine cfg nr (outgroupListOf cfg) st i line).pxrr_calls ≠ st.pxrr_calls ↔
      ∃ og ∈ outgroupListOf cfg, containsWholeWord og line = true) ∧
    ((∀ og ∈ outgroupListOf cfg, containsWholeWord og line = false) →
      (stepLine cfg nr (outgroupListOf cfg) st i line).no_outgroups =
          st.no_outgroups ++ [outfilePath cfg nr name0] ∧
      (stepLine cfg nr (outgroupListOf cfg) st i line).rr_files = st.rr_files ∧
      (stepLine cfg nr (outgroupListOf cfg) st i line).files =
          st.files ++ [(outfilePath cfg nr name0, pyStrip line ++ "\n")]) := by
  cases hany : (outgroupListOf cfg).any (fun og => containsWholeWord og line) with
  | true =>
    refine ⟨⟨fun _ => ?_, fun _ => ?_⟩, fun hnone => ?_⟩
    · exact List.any_eq_true.mp hany
    · simp only [stepLine, hd, hfa, hr, hk, hany]
      cases hpx : cfg.pxrrOk (outfilePath cfg nr name0) <;>
        · intro heq
          simpa using congrArg List.length heq
    · rcases List.any_eq_true.mp hany with ⟨og, hog, hcw⟩
      rw [hnone og hog] at hcw
      exact absurd hcw (by simp)
  | false =>
    refine ⟨⟨fun hne => ?_, fun hex => ?_⟩, fun hnone => ?_⟩
    · exfalso
      apply hne
      simp [stepLine, hd, hfa, hr, hk, hany]
    · rcases hex with ⟨og, hog, hcw⟩
      have hx : (outgroupListOf cfg).any (fun og => containsWholeWord og line) = true :=
        List.any_eq_true.mpr ⟨og, hog, hcw⟩
      rw [hany] at hx
      exact absurd hx (by simp)
    · refine ⟨?_, ?_, ?_⟩ <;> simp only [stepLine, hd, hfa, hr, hk, hany] <;> simp

/-- C4: a failing external reroot invocation increments the failure counter
by one, appends the written path to the failure list (the invocation itself
having been recorded, and the `.treefile` written), and leaves the
processing of any further lines unaffected: a run over any remaining lines
from any state equals the state plus the same run started from zero. -/
theorem c4_failure_recovery (cfg : Config) (nr : Option (String × String)) (st : St)
    (i : Nat) (line : String) (name0 : String)
    (hr : strTruthy cfg.reroot = true)
    (hd : dictLookup cfg.id_to_name i = some name0)
    (hfa : (strTruthy cfg.fasta_dir && !cfg.fastaExists (fastaPath cfg nr name0)) = false)
    (hgate : (cfg.keep_only_outgroup &&
        !((outgroupListOf cfg).any fun og => containsWholeWord og line)) = false)
    (hfail : cfg.pxrrOk (outfilePath cfg nr name0) = false) :
    ((stepLine cfg nr (outgroupListOf cfg) st i line).reroot_failed = st.reroot_failed + 1 ∧
     (stepLine cfg nr (outgroupListOf cfg) st i line).reroot_fail_list =
        st.reroot_fail_list ++ [outfilePath cfg nr name0] ∧
     (stepLine cfg nr (outgroupListOf cfg) st i line).pxrr_calls =
        st.pxrr_calls ++ [run_pxrr (outfilePath cfg nr name0) (cfg.reroot.getD "")
          (outfilePath cfg nr name0 ++ ".rr")] ∧
     (stepLine cfg nr (outgroupListOf cfg) st i line).files =
        st.files ++ [(outfilePath cfg nr name0, pyStrip line ++ "\n")]) ∧
    ∀ (st' : St) (j : Nat) (rest : List String),
      splitLoop cfg nr (outgroupListOf cfg) st' j rest =
        stAppend st' (splitLoop cfg nr (outgroupListOf cfg) initSt j rest) := by
  constructor
  · refine ⟨?_, ?_, ?_, ?_⟩ <;> simp only [stepLine, hd, hfa, hr, hgate, hfail] <;> simp
  · intro st' j rest
    exact splitLoop_from_initSt cfg nr (outgroupListOf cfg) st' j rest

/-- Configuration for the C3 witness: gating enabled, outgroup `sp1`. -/
def cfgC3 : Config :=
  { id_to_name := [(1, "g")], outdir := "out", suffix := none, fasta_dir := none,
    reroot := some "sp1", keep_only_outgroup := true, name_replace := none,
    fastaExists := fun _ => false, regexSub := fun _ _ s => s, pxrrOk := fun _ => true }

theorem c3_witness :
    (stepLine cfgC3 none (outgroupListOf cfgC3) initSt 1 "(sp1,x);\n").pxrr_calls ≠
        initSt.pxrr_calls ↔
      ∃ og ∈ outgroupListOf cfgC3, containsWholeWord og "(sp1,x);\n" = true :=
  (c3_outgroup_gating cfgC3 none initSt 1 "(sp1,x);\n" "g" rfl rfl rfl rfl).1

/-- Configuration for the C4 witness: rerooting configured, `pxrr` failing. -/
def cfgC4 : Config :=
  { id_to_name := [(1, "g")], outdir := "out", suffix := none, fasta_dir := none,
    reroot := some "sp1", keep_only_outgroup := false, name_replace := none,
    fastaExists := fun _ => false, regexSub := fun _ _ s => s, pxrrOk := fun _ => false }

theorem c4_witness :
    (stepLine cfgC4 none (outgroupListOf cfgC4) initSt 1 "(sp1);\n").reroot_failed =
        initSt.reroot_failed + 1 ∧
    (stepLine cfgC4 none (outgroupListOf cfgC4) initSt 1 "(sp1);\n").reroot_fail_list =
        initSt.reroot_fail_list ++ [outfilePath cfgC4 none "g"] ∧
    (stepLine cfgC4 none (outgroupListOf cfgC4) initSt 1 "(sp1);\n").pxrr_calls =
        initSt.pxrr_calls ++ [run_pxrr (outfilePath cfgC4 none "g") (cfgC4.reroot.getD "")
          (outfilePath cfgC4 none "g" ++ ".rr")] ∧
    (stepLine cfgC4 none (outgroupListOf cfgC4) initSt 1 "(sp1);\n").files =
        initSt.files ++ [(outfilePath cfgC4 none "g", pyStrip "(sp1);\n" ++ "\n")] :=
  (c4_failure_recovery cfgC4 none initSt 1 "(sp1);\n" "g" rfl rfl rfl rfl rfl).1

theorem lineWrite_shape (cfg : Config) (nr : Option (String × String)) (i : Nat)
    (l : String) (pc : String × String) (h : lineWrite cfg nr i l = some pc) :
    ∃ name0, dictLookup cfg.id_to_name i = some name0 ∧
      pc = (outfilePath cfg nr name0, pyStrip l ++ "\n") := by
  unfold lineWrite at h
  cases hd : dictLookup cfg.id_to_name i with
  | none => rw [hd] at h; exact absurd h (by simp)
  | some name0 =>
    rw [hd] at h
    dsimp only at h
    split_ifs at h
    exact ⟨name0, rfl, (Option.some.inj h).symm⟩

/-- Spec-side restatement of the amended name resolution: the transform
is applied exactly when both the pattern and the replacement part are
non-empty; then the (possibly empty) suffix rule follows. -/
def specBase (cfg : Config) (pat sub name0 : String) : String :=
  if strTruthy cfg.suffix then
    (if pat.isEmpty || sub.isEmpty then name0 else cfg.regexSub pat sub name0) ++
      cfg.suffix.getD ""
  else if pat.isEmpty || sub.isEmpty then name0 else cfg.regexSub pat sub name0

theorem basenameOf_eq_specBase (cfg : Config) (pat sub name0 : String) :
    basenameOf cfg (some (pat, sub)) name0 = specBase cfg pat sub name0 := by
  unfold basenameOf resolveName specBase
  cases hp : pat.isEmpty <;> cases hs : sub.isEmpty <;> simp [hp, hs]

/-- The configuration of the C7 counterexample: `--name_replace "b,"` is
well formed (it contains the delimiting comma) with an empty replacement;
the mapped name of line 1 is `ab`, and the regex oracle records that
`re.sub("b", "", "ab")` is `"a"`. -/
def cfgC7 : Config :=
  { id_to_name := [(1, "ab")], outdir := "out", suffix := none, fasta_dir := none,
    reroot := none, keep_only_outgroup := false, name_replace := some "b,",
    fastaExists := fun _ => false,
    regexSub := fun p r s => if p == "b" && r == "" && s == "ab" then "a" else s,
    pxrrOk := fun _ => true }

/-- The run state the C7 counterexample produces. -/
def stC7 : St :=
  { written := 1, skipped_missing_fasta := 0, rerooted := 0, reroot_failed := 0,
    no_outgroups := [], reroot_fail_list := [],
    files := [("out/ab.treefile", "(t);\n")], rr_files := [], pxrr_calls := [] }

/-- C7 is false as stated: with the well-formed pair `("b", "")` (empty
replacement) the code skips the substitution — the written file is
`out/ab.treefile`, not the `out/a.treefile` that applying
`re.sub("b", "", "ab") = "a"` would give. -/
theorem c7_counterexample :
    nrResolve cfgC7.name_replace = Except.ok (some ("b", "")) ∧
    cfgC7.regexSub "b" "" "ab" = "a" ∧
    split_trees cfgC7 ["(t);\n"] = Except.ok stC7 ∧
    stC7.files = [("out/ab.treefile", "(t);\n")] ∧
    ∀ pc ∈ stC7.files, ¬ (pc.1 = "out/" ++ cfgC7.regexSub "b" "" "ab" ++ ".treefile") :=
  ⟨rfl, rfl, rfl, rfl, by decide⟩

/-- C7 amended: with a well-formed `pattern,replacement` pair, the regex
substitution is applied to a mapped locus name exactly when both the pattern
part and the replacement part are non-empty (Python truthiness); the name so
resolved — raw when either part is empty — is then suffixed and used both
for the written filename and for the companion-file check. -/
theorem c7_name_transform (cfg : Config) (lines : List String) (st : St)
    (pat sub : String)
    (hnr : nrResolve cfg.name_replace = Except.ok (some (pat, sub)))
    (h : split_trees cfg lines = Except.ok st) :
    (∀ pc ∈ st.files, ∃ i line name0,
        (i, line) ∈ List.enumFrom 1 lines ∧
        dictLookup cfg.id_to_name i = some name0 ∧
        pc = (cfg.outdir ++ "/" ++ specBase cfg pat sub name0 ++ ".treefile",
              pyStrip line ++ "\n")) ∧
    ∀ (i : Nat) (line : String),
      (lineWrite cfg (some (pat, sub)) i line).isSome = true ↔
        ∃ name0, dictLookup cfg.id_to_name i = some name0 ∧
          (strTruthy cfg.fasta_dir = true →
            cfg.fastaExists (cfg.fasta_dir.getD "" ++ "/" ++
              specBase cfg pat sub name0 ++ ".fasta") = true) := by
  have hst : st = splitLoop cfg (some (pat, sub)) (outgroupListOf cfg) initSt 1 lines := by
    simp only [split_trees, hnr] at h
    exact (Except.ok.inj h).symm
  constructor
  · intro pc hpc
    rw [hst, splitLoop_files] at hpc
    simp only [initSt, List.nil_append] at hpc
    rcases List.mem_filterMap.mp hpc with ⟨p, hp, hw⟩
    rcases lineWrite_shape cfg (some (pat, sub)) p.1 p.2 pc hw with ⟨name0, hd, hpc2⟩
    refine ⟨p.1, p.2, name0, by rw [Prod.mk.eta]; exact hp, hd, ?_⟩
    rw [hpc2, outfilePath, basenameOf_eq_specBase]
  · intro i line
    cases hd : dictLookup cfg.id_to_name i with
    | none => simp [lineWrite, hd]
    | some name0 =>
      simp only [lineWrite, hd]
      have hfp : fastaPath cfg (some (pat, sub)) name0 =
          cfg.fasta_dir.getD "" ++ "/" ++ specBase cfg pat sub name0 ++ ".fasta" := by
        rw [fastaPath, basenameOf_eq_specBase]
      rw [hfp]
      cases hf : strTruthy cfg.fasta_dir <;>
        cases he : cfg.fastaExists
          (cfg.fasta_dir.getD "" ++ "/" ++ specBase cfg pat sub name0 ++ ".fasta") <;>
        simp [hf, he]

/-- Configuration for the C7 witness: pattern and replacement both
non-empty, so the substitution is applied. -/
def cfgC7w : Config :=
  { id_to_name := [(1, "ab")], outdir := "out", suffix := none, fasta_dir := none,
    reroot := none, keep_only_outgroup := false, name_replace := some "b,c",
    fastaExists := fun _ => false,
    regexSub := fun p r s => if p == "b" && r == "c" && s == "ab" then "ac" else s,
    pxrrOk := fun _ => true }

/-- The run state the C7 witness configuration produces. -/
def stC7w : St :=
  { written := 1, skipped_missing_fasta := 0, rerooted := 0, reroot_failed := 0,
    no_outgroups := [], reroot_fail_list := [],
    files := [("out/ac.treefile", "(t);\n")], rr_files := [], pxrr_calls := [] }

theorem c7_witness :
    (lineWrite cfgC7w (some ("b", "c")) 1 "(t);\n").isSome = true ↔
      ∃ name0, dictLookup cfgC7w.id_to_name 1 = some name0 ∧
        (strTruthy cfgC7w.fasta_dir = true →
          cfgC7w.fastaExists (cfgC7w.fasta_dir.getD "" ++ "/" ++
            specBase cfgC7w "b" "c" name0 ++ ".fasta") = true) :=
  (c7_name_transform cfgC7w ["(t);\n"] stC7w "b" "c" rfl rfl).2 1 "(t);\n"

/-- The configuration of the C8 counterexample: the raw `--reroot` value
`"sp1, sp2"` contains a space after the comma, so it differs from the
comma-join of the trimmed token list. -/
def cfgC8 : Config :=
  { id_to_name := [(1, "g")], outdir := "out", suffix := none, fasta_dir := none,
    reroot := some "sp1, sp2", keep_only_outgroup := false, name_replace := none,
    fastaExists := fun _ => false, regexSub := fun _ _ s => s, pxrrOk := fun _ => true }

/-- The run state the C8 counterexample produces. -/
def stC8 : St :=
  { written := 1, skipped_missing_fasta := 0, rerooted := 1, reroot_failed := 0,
    no_outgroups := [], reroot_fail_list := [],
    files := [("out/g.treefile", "(sp1);\n")], rr_files := ["out/g.treefile.rr"],
    pxrr_calls := [{ treefile := "out/g.treefile", ranked_ogs := "sp1, sp2",
                     out_file := "out/g.treefile.rr" }] }

/-- C8 is false as stated: the `-g` value passed to `pxrr` is the raw
configured string `"sp1, sp2"`, not the comma-join `"sp1,sp2"` of the
trimmed outgroup token list. -/
theorem c8_counterexample :
    cfgC8.reroot = some "sp1, sp2" ∧
    split_trees cfgC8 ["(sp1);\n"] = Except.ok stC8 ∧
    stC8.pxrr_calls = [{ treefile := "out/g.treefile", ranked_ogs := "sp1, sp2",
                         out_file := "out/g.treefile.rr" }] ∧
    String.intercalate "," (outgroupListOf cfgC8) = "sp1,sp2" ∧
    ∀ c ∈ stC8.pxrr_calls,
      ¬ (c.ranked_ogs = String.intercalate "," (outgroupListOf cfgC8)) :=
  ⟨rfl, rfl, rfl, by decide, by decide⟩

/-- C8 amended: the outgroup argument passed to the external rerooting tool
(the `-g` value) of every attempted invocation equals the raw configured
`--reroot` string; the split/trimmed token list is used only for the
outgroup gate. -/
theorem c8_raw_reroot_arg (cfg : Config) (lines : List String) (st : St)
    (h : split_trees cfg lines = Except.ok st) :
    ∀ c ∈ st.pxrr_calls, c.ranked_ogs = cfg.reroot.getD "" := by
  cases hnr : nrResolve cfg.name_replace with
  | error e =>
    simp only [split_trees, hnr] at h
    exact Except.noConfusion h
  | ok nr =>
    have hst : st = splitLoop cfg nr (outgroupListOf cfg) initSt 1 lines := by
      simp only [split_trees, hnr] at h
      exact (Except.ok.inj h).symm
    intro c hc
    rw [hst] at hc
    rcases splitLoop_calls_raw cfg nr (outgroupListOf cfg) lines initSt 1 c hc with h0 | h0
    · simp [initSt] at h0
    · exact h0

theorem c8_witness :
    ({ treefile := "out/g.treefile", ranked_ogs := "sp1, sp2",
       out_file := "out/g.treefile.rr" } : PxrrCall).ranked_ogs = cfgC8.reroot.getD "" :=
  c8_raw_reroot_arg cfgC8 ["(sp1);\n"] stC8 rfl
    { treefile := "out/g.treefile", ranked_ogs := "sp1, sp2",
      out_file := "out/g.treefile.rr" } (by decide)

theorem listfile_paths_ne (o : String) :
    ¬ ((o ++ "/reroot_failed.list" : String) = o ++ "/no_outgroups.list") := by
  intro hq
  have h2 : o.data ++ ("/reroot_failed.list" : String).data =
      o.data ++ ("/no_outgroups.list" : String).data := congrArg String.data hq
  have h3 := List.append_cancel_left h2
  exact absurd h3 (by decide)

theorem isEmpty_true_eq_nil {a : Type} (l : List a) (h : l.isEmpty = true) : l = [] := by
  cases l with
  | nil => rfl
  | cons x t => simp at h

/-- C9: whenever rerooting is requested, a completed run writes
`no_outgroups.list` in the output directory with the recorded paths (even
when the list is empty), and writes `reroot_failed.list` there exactly when
at least one reroot invocation failed. -/
theorem c9_list_artifacts (cfg : Config) (lines : List String) (st : St)
    (arts : List (String × List String))
    (hr : strTruthy cfg.reroot = true)
    (h : run_split_trees cfg lines = Except.ok (st, arts)) :
    ((cfg.outdir ++ "/no_outgroups.list", st.no_outgroups) ∈ arts) ∧
    ((∃ c, (cfg.outdir ++ "/reroot_failed.list", c) ∈ arts) ↔ 0 < st.reroot_failed) := by
  cases hsp : split_trees cfg lines with
  | error e =>
    simp only [run_split_trees, hsp] at h
    exact Except.noConfusion h
  | ok st0 =>
    simp only [run_split_trees, hsp] at h
    have hpair := Except.ok.inj h
    injection hpair with hst hartseq
    have harts : arts = finalize cfg st := by rw [← hartseq, hst]
    have hlen : st.reroot_failed = st.reroot_fail_list.length := by
      rw [← hst]
      cases hnr : nrResolve cfg.name_replace with
      | error e =>
        simp only [split_trees, hnr] at hsp
        exact Except.noConfusion hsp
      | ok nr =>
        have hst0 : st0 = splitLoop cfg nr (outgroupListOf cfg) initSt 1 lines := by
          simp only [split_trees, hnr] at hsp
          exact (Except.ok.inj hsp).symm
        rw [hst0]
        exact splitLoop_fail_count cfg nr (outgroupListOf cfg) lines initSt 1 (by simp [initSt])
    rw [harts]
    simp only [finalize, hr, if_true]
    constructor
    · exact List.mem_cons_self _ _
    · constructor
      · rintro ⟨c, hc⟩
        rcases List.mem_cons.mp hc with hc | hc
        · exact absurd (congrArg Prod.fst hc) (listfile_paths_ne cfg.outdir)
        · rw [hlen]
          cases hE : st.reroot_fail_list.isEmpty with
          | false =>
            cases hL : st.reroot_fail_list with
            | nil => rw [hL] at hE; exact absurd hE (by simp)
            | cons a l => simp [hL]
          | true =>
            rw [hE] at hc
            simp at hc
      · intro hpos
        have hne : ¬ st.reroot_fail_list.isEmpty = true := by
          intro hE
          rw [isEmpty_true_eq_nil _ hE] at hlen
          rw [hlen] at hpos
          exact absurd hpos (by simp)
        refine ⟨st.reroot_fail_list, ?_⟩
        apply List.mem_cons_of_mem
        rw [if_neg hne]
        exact List.mem_cons_self _ _

/-- C10: with rerooting configured, every completed run satisfies
`rerooted + reroot_failed + |no_outgroups| = written` — each written line
gets exactly one of the three reroot outcomes — and when outgroup-gating is
not enabled the no-outgroups list is empty. -/
theorem c10_outcome_partition (cfg : Config) (lines : List String) (st : St)
    (hr : strTruthy cfg.reroot = true)
    (h : split_trees cfg lines = Except.ok st) :
    st.rerooted + st.reroot_failed + st.no_outgroups.length = st.written ∧
    (cfg.keep_only_outgroup = false → st.no_outgroups = []) := by
  cases hnr : nrResolve cfg.name_replace with
  | error e =>
    simp only [split_trees, hnr] at h
    exact Except.noConfusion h
  | ok nr =>
    have hst : st = splitLoop cfg nr (outgroupListOf cfg) initSt 1 lines := by
      simp only [split_trees, hnr] at h
      exact (Except.ok.inj h).symm
    constructor
    · rw [hst]
      exact splitLoop_outcome_sum cfg nr (outgroupListOf cfg) hr lines initSt 1 (by simp [initSt])
    · intro hk
      rw [hst, splitLoop_no_outgroups_keep_false cfg nr (outgroupListOf cfg) hk lines initSt 1]
      simp [initSt]

/-- The run state of the C9/C10 witness run (`cfgC4`, one line, failing
`pxrr`). -/
def stC4r : St :=
  { written := 1, skipped_missing_fasta := 0, rerooted := 0, reroot_failed := 1,
    no_outgroups := [], reroot_fail_list := ["out/g.treefile"],
    files := [("out/g.treefile", "(sp1);\n")], rr_files := [],
    pxrr_calls := [{ treefile := "out/g.treefile", ranked_ogs := "sp1",
                     out_file := "out/g.treefile.rr" }] }

/-- The artifacts of the C9 witness run. -/
def artsC4r : List (String × List String) :=
  [("out/no_outgroups.list", []), ("out/reroot_failed.list", ["out/g.treefile"])]

theorem c9_witness :
    (("out" : String) ++ "/no_outgroups.list", stC4r.no_outgroups) ∈ artsC4r ∧
    ((∃ c, (("out" : String) ++ "/reroot_failed.list", c) ∈ artsC4r) ↔
      0 < stC4r.reroot_failed) :=
  c9_list_artifacts cfgC4 ["(sp1);\n"] stC4r artsC4r rfl rfl

theorem c10_witness :
    stC4r.rerooted + stC4r.reroot_failed + stC4r.no_outgroups.length = stC4r.written ∧
    (cfgC4.keep_only_outgroup = false → stC4r.no_outgroups = []) :=
  c10_outcome_partition cfgC4 ["(sp1);\n"] stC4r rfl rfl
